import Mathlib

/-
  Shallow embedding of the core of the scooter repository (an interactive
  terminal search-and-replace tool) and proofs about it.

  Sources embedded here:
    - src/src/event.rs   : ReplaceResult, SearchResult, BackgroundProcessingEvent
    - src/src/app.rs     : SearchState, ReplaceState, Screen,
                           calculate_statistics, replace_in_file, ignore_file,
                           handle_background_processing_event, validate_fields,
                           perform_search_if_valid
    - src/src/fields.rs  : TextField and its editing operations
    - src/src/parsed_fields.rs : SearchType, replacement_if_match, handle_path

  External crates (regex engines, the content_inspector byte sniffer, the
  filesystem) are represented abstractly: regex engines as function-valued
  constructor fields, the sniffer as a boolean-valued parameter, and file
  contents as lists of lines as produced by the buffered line readers used in
  the source.
-/

namespace Scooter

/-! ### Data model (src/src/event.rs) -/

/-- ReplaceResult from src/src/event.rs. -/
inductive ReplaceResult where
  | Success : ReplaceResult
  | Error : String → ReplaceResult
deriving DecidableEq, Repr

/-- SearchResult from src/src/event.rs; PathBuf is represented as a String. -/
structure SearchResult where
  path : String
  line_number : Nat
  line : String
  replacement : String
  included : Bool
  replace_result : Option ReplaceResult
deriving DecidableEq, Repr

/-! ### SearchState and its selection operations (src/src/app.rs) -/

/-- SearchState from src/src/app.rs. -/
structure SearchState where
  results : List SearchResult
  selected : Nat
deriving DecidableEq, Repr

/-- SearchState::move_selected_up: wrap from 0 to len, then saturating minus one. -/
def SearchState.move_selected_up (s : SearchState) : SearchState :=
  let sel := if s.selected = 0 then s.results.length else s.selected
  { s with selected := sel - 1 }

/-- SearchState::move_selected_down: at or past the last index, wrap to 0. -/
def SearchState.move_selected_down (s : SearchState) : SearchState :=
  if s.selected ≥ s.results.length - 1 then
    { s with selected := 0 }
  else
    { s with selected := s.selected + 1 }

/-- SearchState::toggle_selected_inclusion from src/src/app.rs. -/
def SearchState.toggle_selected_inclusion (s : SearchState) : SearchState :=
  if h : s.selected < s.results.length then
    let r := s.results.get ⟨s.selected, h⟩
    { s with results := s.results.set s.selected { r with included := !r.included } }
  else
    { s with selected := s.results.length - 1 }

/-! ### ReplaceState and statistics (src/src/app.rs) -/

/-- ReplaceState from src/src/app.rs. -/
structure ReplaceState where
  num_successes : Nat
  num_ignored : Nat
  errors : List SearchResult
  replacement_errors_pos : Nat
deriving DecidableEq, Repr

/-- One step of the for_each in App::calculate_statistics, in source match-arm
order: not included counts as ignored; then Success; then a missing outcome
becomes an Error pushed onto the error list; then an existing Error is pushed. -/
def statsStep (acc : Nat × Nat × List SearchResult) (res : SearchResult) :
    Nat × Nat × List SearchResult :=
  match res.included, res.replace_result with
  | false, _ => (acc.1, acc.2.1 + 1, acc.2.2)
  | _, some .Success => (acc.1 + 1, acc.2.1, acc.2.2)
  | _, none =>
      (acc.1, acc.2.1,
        acc.2.2 ++
          [{ res with
              replace_result := some (.Error "Failed to find search result in file") }])
  | _, some (.Error _) => (acc.1, acc.2.1, acc.2.2 ++ [res])

/-- App::calculate_statistics from src/src/app.rs. -/
def calculate_statistics (results : List SearchResult) : ReplaceState :=
  let acc := results.foldl statsStep (0, 0, [])
  { num_successes := acc.1
    num_ignored := acc.2.1
    errors := acc.2.2
    replacement_errors_pos := 0 }

/-- A result counts as a success in the statistics: included with a Success outcome. -/
def isSuccessResult (r : SearchResult) : Bool :=
  r.included && decide (r.replace_result = some .Success)

/-- A result counts as an error in the statistics: included without a Success outcome. -/
def isErrorResult (r : SearchResult) : Bool :=
  r.included && !(decide (r.replace_result = some .Success))

/-- The error list the statistics fold produces: included non-Success results in
order, a missing outcome replaced by the fixed Error message. -/
def errorListSpec (results : List SearchResult) : List SearchResult :=
  (results.filter isErrorResult).map (fun r =>
    if r.replace_result = none then
      { r with replace_result := some (.Error "Failed to find search result in file") }
    else r)

/-! ### Screens and the background-event reducer (src/src/app.rs) -/

/-- EventHandlingResult from src/src/event.rs. -/
structure EventHandlingResult where
  exit : Bool
  rerender : Bool
deriving DecidableEq, Repr

/-- Screen from src/src/app.rs. The worker handles, channels and render
instants carried by the source variants are runtime resources; the state the
reducer reads and writes (the SearchState and ReplaceState payloads) is kept. -/
inductive Screen where
  | SearchFields
  | SearchProgressing (search_state : SearchState)
  | SearchComplete (search_state : SearchState)
  | PerformingReplacement
  | Results (replace_state : ReplaceState)
deriving DecidableEq, Repr

/-- BackgroundProcessingEvent from src/src/event.rs. -/
inductive BackgroundProcessingEvent where
  | AddSearchResult (result : SearchResult)
  | SearchCompleted
  | ReplacementCompleted (replace_state : ReplaceState)
deriving DecidableEq, Repr

/-- App::handle_background_processing_event from src/src/app.rs. The 100ms
render-coalescing test `last_render.elapsed() >= 100ms` is the boolean
argument `renderIntervalElapsed`. On SearchCompleted the source first swaps
SearchFields into place and only restores SearchComplete when the old screen
was SearchProgressing. -/
def handle_background_processing_event (screen : Screen)
    (event : BackgroundProcessingEvent) (renderIntervalElapsed : Bool) :
    Screen × EventHandlingResult :=
  match event with
  | .AddSearchResult result =>
      match screen with
      | .SearchProgressing s =>
          (.SearchProgressing { s with results := s.results ++ [result] },
            { exit := false, rerender := renderIntervalElapsed })
      | other => (other, { exit := false, rerender := false })
  | .SearchCompleted =>
      match screen with
      | .SearchProgressing s => (.SearchComplete s, { exit := false, rerender := true })
      | _ => (.SearchFields, { exit := false, rerender := true })
  | .ReplacementCompleted rs => (.Results rs, { exit := false, rerender := true })

/-! ### Helper lemmas -/

theorem SearchState.eq_of_fields {t u : SearchState}
    (h1 : t.results = u.results) (h2 : t.selected = u.selected) : t = u := by
  cases t; cases u; simp_all

/-- The statistics fold, run from an arbitrary accumulator. -/
theorem statsFold (results : List SearchResult) (a b : Nat) (e : List SearchResult) :
    results.foldl statsStep (a, b, e) =
      (a + results.countP isSuccessResult,
       b + results.countP (fun r => !r.included),
       e ++ errorListSpec results) := by
  induction results generalizing a b e with
  | nil => simp [errorListSpec]
  | cons r rs ih =>
    rw [List.foldl_cons]
    cases hi : r.included with
    | false =>
      have hstep : statsStep (a, b, e) r = (a, b + 1, e) := by simp [statsStep, hi]
      rw [hstep, ih]
      simp [List.countP_cons, errorListSpec, isSuccessResult, isErrorResult, hi]
      omega
    | true =>
      cases hr : r.replace_result with
      | none =>
        have hstep : statsStep (a, b, e) r = (a, b, e ++ [{ r with replace_result := some (ReplaceResult.Error "Failed to find search result in file") }]) := by
          simp [statsStep, hi, hr]
        rw [hstep, ih]
        simp [List.countP_cons, errorListSpec, isSuccessResult, isErrorResult, hi, hr]
      | some rr =>
        cases rr with
        | Success =>
          have hstep : statsStep (a, b, e) r = (a + 1, b, e) := by simp [statsStep, hi, hr]
          rw [hstep, ih]
          simp [List.countP_cons, errorListSpec, isSuccessResult, isErrorResult, hi, hr]
          omega
        | Error msg =>
          have hstep : statsStep (a, b, e) r = (a, b, e ++ [r]) := by
            simp [statsStep, hi, hr]
          rw [hstep, ih]
          simp [List.countP_cons, errorListSpec, isSuccessResult, isErrorResult, hi, hr]

/-- The three statistics buckets partition the result list. -/
theorem statsPartition (results : List SearchResult) :
    results.countP isSuccessResult + results.countP (fun r => !r.included)
      + results.countP isErrorResult = results.length := by
  induction results with
  | nil => simp
  | cons r rs ih =>
    simp only [List.countP_cons, List.length_cons]
    cases hi : r.included
    · simp [isSuccessResult, isErrorResult, hi]; omega
    · by_cases hs : r.replace_result = some .Success <;>
        simp [isSuccessResult, isErrorResult, hi, hs] <;> omega

/-- C4: the statistics fold classifies every result into exactly one bucket:
not-included results are counted as ignored, included Success results as
successes, included results with a missing or Error outcome go to the error
list (a missing outcome gaining the fixed message), and the three bucket sizes
add up to the total number of results. -/
theorem C4_statistics_conservation (results : List SearchResult) :
    (calculate_statistics results).num_successes = results.countP isSuccessResult
  ∧ (calculate_statistics results).num_ignored = results.countP (fun r => !r.included)
  ∧ (calculate_statistics results).errors = errorListSpec results
  ∧ (calculate_statistics results).num_successes + (calculate_statistics results).num_ignored
      + (calculate_statistics results).errors.length = results.length := by
  have h := statsFold results 0 0 []
  have hpart := statsPartition results
  have hlen : (errorListSpec results).length = results.countP isErrorResult := by
    simp [errorListSpec, List.countP_eq_length_filter]
  refine ⟨?_, ?_, ?_, ?_⟩ <;>
    simp only [calculate_statistics, h, hlen] <;> simp <;> omega

/-- C7: the background-event reducer appends an arriving search result to the
in-progress state only while the screen is SearchProgressing; on any other
screen the AddSearchResult event leaves the screen (and hence every search
state) unchanged. -/
theorem C7_add_result_only_in_progress (screen : Screen) (result : SearchResult)
    (elapsed : Bool) :
    (handle_background_processing_event screen (.AddSearchResult result) elapsed).1 =
      match screen with
      | .SearchProgressing s =>
          .SearchProgressing { s with results := s.results ++ [result] }
      | other => other := by
  cases screen <;> rfl

/-! ### Selection-cursor arithmetic for C8 -/

theorem move_selected_down_results (s : SearchState) :
    (s.move_selected_down).results = s.results := by
  unfold SearchState.move_selected_down; split <;> rfl

theorem move_selected_up_results (s : SearchState) :
    (s.move_selected_up).results = s.results := rfl

theorem move_selected_down_selected (s : SearchState)
    (h : s.selected < s.results.length) :
    (s.move_selected_down).selected = (s.selected + 1) % s.results.length := by
  unfold SearchState.move_selected_down
  split
  · next h1 =>
    have hsel : s.selected = s.results.length - 1 := by omega
    simp only [hsel]
    rw [Nat.sub_add_cancel (by omega), Nat.mod_self]
  · next h1 =>
    have : s.selected + 1 < s.results.length := by omega
    simp [Nat.mod_eq_of_lt this]

theorem move_selected_up_selected (s : SearchState)
    (h : s.selected < s.results.length) :
    (s.move_selected_up).selected =
      (s.selected + (s.results.length - 1)) % s.results.length := by
  show (if s.selected = 0 then s.results.length else s.selected) - 1 = _
  by_cases h0 : s.selected = 0
  · rw [if_pos h0, h0, Nat.zero_add, Nat.mod_eq_of_lt (by omega)]
  · rw [if_neg h0]
    have heq : s.selected + (s.results.length - 1) = (s.selected - 1) + s.results.length := by
      omega
    rw [heq, Nat.add_mod_right, Nat.mod_eq_of_lt (by omega)]

theorem move_selected_down_iter (s : SearchState) (h : s.selected < s.results.length)
    (k : Nat) :
    (SearchState.move_selected_down^[k] s).results = s.results ∧
    (SearchState.move_selected_down^[k] s).selected =
      (s.selected + k) % s.results.length := by
  induction k with
  | zero => simpa using (Nat.mod_eq_of_lt h).symm
  | succ k ih =>
    rw [Function.iterate_succ_apply']
    obtain ⟨ihr, ihs⟩ := ih
    have hlt : (SearchState.move_selected_down^[k] s).selected
        < (SearchState.move_selected_down^[k] s).results.length := by
      rw [ihr, ihs]; exact Nat.mod_lt _ (by omega)
    refine ⟨by rw [move_selected_down_results, ihr], ?_⟩
    rw [move_selected_down_selected _ hlt, ihr, ihs, Nat.mod_add_mod, Nat.add_assoc]

theorem move_selected_up_iter (s : SearchState) (h : s.selected < s.results.length)
    (k : Nat) :
    (SearchState.move_selected_up^[k] s).results = s.results ∧
    (SearchState.move_selected_up^[k] s).selected =
      (s.selected + k * (s.results.length - 1)) % s.results.length := by
  induction k with
  | zero => simpa using (Nat.mod_eq_of_lt h).symm
  | succ k ih =>
    rw [Function.iterate_succ_apply']
    obtain ⟨ihr, ihs⟩ := ih
    have hlt : (SearchState.move_selected_up^[k] s).selected
        < (SearchState.move_selected_up^[k] s).results.length := by
      rw [ihr, ihs]; exact Nat.mod_lt _ (by omega)
    refine ⟨by rw [move_selected_up_results, ihr], ?_⟩
    rw [move_selected_up_selected _ hlt, ihr, ihs, Nat.mod_add_mod,
      Nat.succ_mul, Nat.add_assoc]

/-- C8: on a SearchState with n > 0 results whose selected index is in range,
moving down n times or up n times is the identity; one move down from the last
index wraps to 0 and one move up from 0 wraps to the last index. -/
theorem C8_selection_wrap (s : SearchState) (h0 : 0 < s.results.length)
    (h : s.selected < s.results.length) :
    SearchState.move_selected_down^[s.results.length] s = s
  ∧ SearchState.move_selected_up^[s.results.length] s = s
  ∧ (s.selected = s.results.length - 1 → (s.move_selected_down).selected = 0)
  ∧ (s.selected = 0 → (s.move_selected_up).selected = s.results.length - 1) := by
  refine ⟨?_, ?_, ?_, ?_⟩
  · obtain ⟨hr, hs⟩ := move_selected_down_iter s h s.results.length
    refine SearchState.eq_of_fields hr ?_
    rw [hs, Nat.add_mod_right, Nat.mod_eq_of_lt h]
  · obtain ⟨hr, hs⟩ := move_selected_up_iter s h s.results.length
    refine SearchState.eq_of_fields hr ?_
    rw [hs, Nat.mul_comm, Nat.add_mul_mod_self_right, Nat.mod_eq_of_lt h]
  · intro hsel
    rw [move_selected_down_selected s h, hsel, Nat.sub_add_cancel h0, Nat.mod_self]
  · intro hsel
    rw [move_selected_up_selected s h, hsel, Nat.zero_add,
      Nat.mod_eq_of_lt (by omega)]

/-- A search result with its included flag flipped. -/
def toggleIncluded (r : SearchResult) : SearchResult :=
  { r with included := !r.included }

/-- C10: toggling inclusion with the selected index in range flips exactly the
selected result and nothing else; with the index out of range it flips nothing
and clamps the index to len - 1 (0 on an empty list). -/
theorem C10_toggle_selected_inclusion (s : SearchState) :
    (∀ h : s.selected < s.results.length,
        s.toggle_selected_inclusion =
          { s with results :=
              s.results.set s.selected (toggleIncluded (s.results.get ⟨s.selected, h⟩)) })
  ∧ (s.results.length ≤ s.selected →
        s.toggle_selected_inclusion = { s with selected := s.results.length - 1 }) := by
  constructor
  · intro h
    simp [SearchState.toggle_selected_inclusion, toggleIncluded, h]
  · intro h
    rw [SearchState.toggle_selected_inclusion, dif_neg (by omega)]

/-! ### The per-file rewrite (App::replace_in_file, src/src/app.rs) -/

/-- Lookup in the line_number → match map (HashMap::get). -/
def mapGet : List (Nat × SearchResult) → Nat → Option SearchResult
  | [], _ => none
  | p :: rest, k => if p.1 = k then some p.2 else mapGet rest k

/-- Write through the map's entry for a key (the &mut obtained by get_mut). -/
def mapSet : List (Nat × SearchResult) → Nat → SearchResult → List (Nat × SearchResult)
  | [], _, _ => []
  | p :: rest, k, v => if p.1 = k then (k, v) :: mapSet rest k v else p :: mapSet rest k v

def mapHasKey : List (Nat × SearchResult) → Nat → Bool
  | [], _ => false
  | p :: rest, k => p.1 == k || mapHasKey rest k

/-- One insertion of HashMap::from_iter: a later entry with an already-present
key overwrites the earlier one. -/
def mapInsert (m : List (Nat × SearchResult)) (k : Nat) (v : SearchResult) :
    List (Nat × SearchResult) :=
  if mapHasKey m k then mapSet m k v else m ++ [(k, v)]

/-- The map from line_number to match built at the top of replace_in_file via
HashMap::from_iter over the per-file results in order. -/
def buildLineMap (results : List SearchResult) : List (Nat × SearchResult) :=
  results.foldl (fun m r => mapInsert m r.line_number r) []

/-- Prepend one written string to the result of processing the remaining lines. -/
def consPiece (piece : String) (r : List String × List (Nat × SearchResult)) :
    List String × List (Nat × SearchResult) :=
  (piece :: r.1, r.2)

/-- The while-let loop of replace_in_file. `index` counts lines already
consumed; the current line is looked up at key index + 1. A line equal to the
recorded original is replaced by the proposed replacement and its match marked
Success; a differing line is written unchanged and its match marked Error
"File changed since last search"; unmapped lines are written unchanged. The
first component collects, in order, exactly the strings passed to
writer.write_all (the source re-attaches no newline); the second is the map
with the outcomes recorded so far. -/
def replaceLines : List (Nat × SearchResult) → List String → Nat →
    List String × List (Nat × SearchResult)
  | lineMap, [], _ => ([], lineMap)
  | lineMap, line :: rest, index =>
    match mapGet lineMap (index + 1) with
    | some res =>
      if line = res.line then
        consPiece res.replacement
          (replaceLines (mapSet lineMap (index + 1)
            { res with replace_result := some .Success }) rest (index + 1))
      else
        consPiece line
          (replaceLines (mapSet lineMap (index + 1)
            { res with replace_result := some (.Error "File changed since last search") })
            rest (index + 1))
    | none => consPiece line (replaceLines lineMap rest (index + 1))

/-- App::replace_in_file on the happy path (no I/O error): build the line map
from the per-file results, stream the file's lines through the rewrite loop. -/
def replace_in_file (fileLines : List String) (results : List SearchResult) :
    List String × List (Nat × SearchResult) :=
  replaceLines (buildLineMap results) fileLines 0

/-- The bytes left at the source path after flush and rename: the written
strings concatenated. -/
def finalContent (fileLines : List String) (results : List SearchResult) : String :=
  String.join (replace_in_file fileLines results).1

/-- What one line's written output is, as a function of its map entry. -/
def lineTransform (o : Option SearchResult) (line : String) : String :=
  match o with
  | some res => if line = res.line then res.replacement else line
  | none => line

/-- What one line's recorded outcome is, as a function of its map entry. -/
def lineOutcome (o : Option SearchResult) (line : String) : Option SearchResult :=
  match o with
  | some res =>
      some (if line = res.line then { res with replace_result := some .Success }
            else { res with replace_result := some (.Error "File changed since last search") })
  | none => none

theorem mapGet_mapSet_ne (m : List (Nat × SearchResult)) (k k2 : Nat) (v : SearchResult)
    (h : k2 ≠ k) : mapGet (mapSet m k v) k2 = mapGet m k2 := by
  induction m with
  | nil => rfl
  | cons p rest ih =>
    by_cases hp : p.1 = k
    · have hq : ¬p.1 = k2 := by omega
      have hk : ¬k = k2 := by omega
      simp [mapSet, mapGet, hp, hq, hk, ih]
    · have hk : ¬k2 = k := h
      by_cases hq : p.1 = k2 <;> simp [mapSet, mapGet, hp, hq, hk, ih]

theorem mapGet_mapSet_eq (m : List (Nat × SearchResult)) (k : Nat) (v w : SearchResult)
    (h : mapGet m k = some w) : mapGet (mapSet m k v) k = some v := by
  induction m with
  | nil => simp [mapGet] at h
  | cons p rest ih =>
    by_cases hp : p.1 = k
    · simp [mapSet, mapGet, hp]
    · simp only [mapSet, if_neg hp, mapGet] at h ⊢
      exact ih h

/-- The rewrite loop never touches map keys at or below its starting index. -/
theorem replaceLines_preserves_low (lines : List String) :
    ∀ (m : List (Nat × SearchResult)) (index k2 : Nat), k2 ≤ index →
      mapGet ((replaceLines m lines index).2) k2 = mapGet m k2 := by
  induction lines with
  | nil => intro m index k2 _; rfl
  | cons line rest ih =>
    intro m index k2 h
    cases hg : mapGet m (index + 1) with
    | none =>
      simp only [replaceLines, hg, consPiece]
      exact ih m (index + 1) k2 (by omega)
    | some res =>
      by_cases hl : line = res.line <;>
        simp only [replaceLines, hg, if_pos, if_neg, hl, ite_true, ite_false, consPiece] <;>
        rw [ih _ (index + 1) k2 (by omega), mapGet_mapSet_ne _ _ _ _ (by omega)]

/-- Per-line characterisation of the rewrite loop: the k-th written string and
the final outcome recorded at key index + k + 1 are determined by the map
entry for that key and the k-th input line. -/
theorem replaceLines_spec (lines : List String) :
    ∀ (m : List (Nat × SearchResult)) (index k : Nat), k < lines.length →
      ((replaceLines m lines index).1.getD k "" =
        lineTransform (mapGet m (index + k + 1)) (lines.getD k ""))
    ∧ (mapGet ((replaceLines m lines index).2) (index + k + 1) =
        lineOutcome (mapGet m (index + k + 1)) (lines.getD k "")) := by
  induction lines with
  | nil => intro m index k hk; simp at hk
  | cons line rest ih =>
    intro m index k hk
    cases k with
    | zero =>
      cases hg : mapGet m (index + 1) with
      | none =>
        constructor
        · simp [replaceLines, hg, consPiece, lineTransform]
        · simp only [replaceLines, hg, consPiece]
          rw [show index + 0 + 1 = index + 1 by omega,
            replaceLines_preserves_low rest m (index + 1) (index + 1) (Nat.le_refl _)]
          simp [hg, lineOutcome]
      | some res =>
        by_cases hl : line = res.line
        · constructor
          · simp [replaceLines, hg, if_pos hl, consPiece, lineTransform, hl]
          · simp only [replaceLines, hg, if_pos hl, consPiece]
            rw [show index + 0 + 1 = index + 1 by omega,
              replaceLines_preserves_low rest _ (index + 1) (index + 1) (Nat.le_refl _),
              mapGet_mapSet_eq m (index + 1) _ res hg]
            simp [hg, lineOutcome, hl]
        · constructor
          · simp [replaceLines, hg, if_neg hl, consPiece, lineTransform, hl]
          · simp only [replaceLines, hg, if_neg hl, consPiece]
            rw [show index + 0 + 1 = index + 1 by omega,
              replaceLines_preserves_low rest _ (index + 1) (index + 1) (Nat.le_refl _),
              mapGet_mapSet_eq m (index + 1) _ res hg]
            simp [hg, lineOutcome, hl]
    | succ k2 =>
      have hk2 : k2 < rest.length := by simpa using hk
      cases hg : mapGet m (index + 1) with
      | none =>
        have h := ih m (index + 1) k2 hk2
        simp only [replaceLines, hg, consPiece, List.getD_cons_succ]
        rw [show index + (k2 + 1) + 1 = index + 1 + k2 + 1 by omega]
        exact h
      | some res =>
        by_cases hl : line = res.line
        · have h := ih (mapSet m (index + 1) { res with replace_result := some .Success })
            (index + 1) k2 hk2
          simp only [replaceLines, hg, if_pos hl, consPiece, List.getD_cons_succ]
          rw [show index + (k2 + 1) + 1 = index + 1 + k2 + 1 by omega]
          rwa [mapGet_mapSet_ne m (index + 1) (index + 1 + k2 + 1) _ (by omega)] at h
        · have h := ih (mapSet m (index + 1)
              { res with replace_result := some (.Error "File changed since last search") })
            (index + 1) k2 hk2
          simp only [replaceLines, hg, if_neg hl, consPiece, List.getD_cons_succ]
          rw [show index + (k2 + 1) + 1 = index + 1 + k2 + 1 by omega]
          rwa [mapGet_mapSet_ne m (index + 1) (index + 1 + k2 + 1) _ (by omega)] at h

/-- C3: a match whose recorded original line differs from the file's current
line at that line number is marked Error "File changed since last search" and
its line is written unchanged. -/
theorem C3_changed_line_preserved (fileLines : List String) (results : List SearchResult)
    (k : Nat) (hk : k < fileLines.length) (res : SearchResult)
    (hres : mapGet (buildLineMap results) (k + 1) = some res)
    (hdiff : fileLines.getD k "" ≠ res.line) :
    (replace_in_file fileLines results).1.getD k "" = fileLines.getD k ""
  ∧ mapGet (replace_in_file fileLines results).2 (k + 1) =
      some { res with replace_result := some (.Error "File changed since last search") } := by
  have h := replaceLines_spec fileLines (buildLineMap results) 0 k hk
  rw [show 0 + k + 1 = k + 1 by omega, hres] at h
  obtain ⟨h1, h2⟩ := h
  refine ⟨?_, ?_⟩
  · rw [replace_in_file, h1, lineTransform, if_neg hdiff]
  · rw [replace_in_file, h2, lineOutcome, if_neg hdiff]

def c3Match : SearchResult :=
  { path := "dir1/file1.txt", line_number := 1, line := "foo", replacement := "baz",
    included := true, replace_result := none }

theorem C3_changed_line_preserved_witness :
    ((0:Nat) < (["qux"] : List String).length)
  ∧ mapGet (buildLineMap [c3Match]) 1 = some c3Match
  ∧ (["qux"] : List String).getD 0 "" ≠ c3Match.line
  ∧ ((replace_in_file ["qux"] [c3Match]).1.getD 0 "" = (["qux"] : List String).getD 0 ""
      ∧ mapGet (replace_in_file ["qux"] [c3Match]).2 1 =
          some { c3Match with
                  replace_result := some (.Error "File changed since last search") }) :=
  ⟨by decide, by decide, by decide,
    C3_changed_line_preserved ["qux"] [c3Match] 0 (by decide) c3Match
      (by decide) (by decide)⟩

def c1Match : SearchResult :=
  { path := "dir1/file1.txt", line_number := 1, line := "foo", replacement := "baz",
    included := true, replace_result := none }

/-- C1: refuted at a concrete input. For the two-line file "foo\nbar\n" with a
single included match rewriting line 1 from "foo" to "baz", the per-line
writes are "baz" then "bar" with no newline re-attached, so the file ends up
holding "bazbar"; the line-by-line transformation of the prior content (and
the expectation of the repository's own tests in tests/app.rs) is
"baz\nbar\n". -/
theorem C1_rewrite_drops_newlines :
    (replace_in_file ["foo", "bar"] [c1Match]).1 = ["baz", "bar"]
  ∧ finalContent ["foo", "bar"] [c1Match] = "bazbar"
  ∧ ("bazbar" : String) ≠ "baz\nbar\n" := by
  refine ⟨by decide, by decide, by decide⟩

/-! ### Path names: file_name, extension, with_extension (Rust std::path) -/

/-- Path::file_name as characters: everything after the last '/'. -/
def fileNameChars (p : List Char) : List Char :=
  (p.reverse.takeWhile (fun c => c ≠ '/')).reverse

/-- The directory part of a path: everything up to and including the last '/'. -/
def dirPartChars (p : List Char) : List Char :=
  (p.reverse.dropWhile (fun c => c ≠ '/')).reverse

/-- Split a file name into (stem, extension) as Path::file_stem and
Path::extension do: the extension follows the last '.', except that a '.' in
first position (a hidden file) belongs to the stem and yields no extension. -/
def splitExtChars (f : List Char) : List Char × Option (List Char) :=
  let revExt := f.reverse.takeWhile (fun c => c ≠ '.')
  if revExt.length = f.length ∨ (revExt.length + 1 = f.length ∧ f.headD 'x' = '.') then
    (f, none)
  else
    (f.take (f.length - revExt.length - 1), some revExt.reverse)

/-- Path::extension of a path given as a string. -/
def pathExtension (p : String) : Option String :=
  (splitExtChars (fileNameChars p.toList)).2.map (fun cs => String.mk cs)

/-- Path::with_extension with a non-empty new extension: the file name's
extension is replaced (the stem keeps its directory part and gains
"." ++ e); a path with an empty file name is returned unchanged. -/
def with_extension (p : String) (e : String) : String :=
  let f := fileNameChars p.toList
  if f = [] then p
  else String.mk (dirPartChars p.toList ++ (splitExtChars f).1 ++ ('.' :: e.toList))

/-! ### The filesystem effects of replace_in_file (C2) -/

/-- One filesystem effect performed by replace_in_file. -/
inductive FsEvent where
  | create (path : String)
  | write (path : String) (data : String)
  | flush (path : String)
  | rename (src : String) (dst : String)
deriving DecidableEq, Repr

def isRenameEvent : FsEvent → Bool
  | .rename _ _ => true
  | _ => false

/-- The sequence of filesystem effects of a successful replace_in_file run,
in source order: create the temp file at file_path.with_extension("tmp"),
write each output string to it, flush it, then rename it over the source. -/
def replaceInFileTrace (file_path : String) (fileLines : List String)
    (results : List SearchResult) : List FsEvent :=
  FsEvent.create (with_extension file_path "tmp") ::
    ((replace_in_file fileLines results).1.map
        (fun piece => FsEvent.write (with_extension file_path "tmp") piece)
      ++ [FsEvent.flush (with_extension file_path "tmp"),
          FsEvent.rename (with_extension file_path "tmp") file_path])

theorem dropWhile_append_of_all {p : Char → Bool} (a b : List Char)
    (h : ∀ c ∈ a, p c = true) : (a ++ b).dropWhile p = b.dropWhile p := by
  induction a with
  | nil => rfl
  | cons c cs ih =>
    rw [List.cons_append, List.dropWhile_cons, if_pos (h c (List.mem_cons_self c cs))]
    exact ih fun x hx => h x (List.mem_cons_of_mem c hx)

theorem dropWhile_self (p : Char → Bool) (l : List Char) :
    (l.dropWhile p).dropWhile p = l.dropWhile p := by
  induction l with
  | nil => rfl
  | cons c cs ih =>
    rw [List.dropWhile_cons]
    by_cases h : p c = true
    · rw [if_pos h]; exact ih
    · rw [if_neg h, List.dropWhile_cons, if_neg h]

theorem mem_takeWhile_pred {p : Char → Bool} :
    ∀ (l : List Char) (c : Char), c ∈ l.takeWhile p → p c = true := by
  intro l
  induction l with
  | nil => intro c hc; simp [List.takeWhile] at hc
  | cons a as ih =>
    intro c hc
    rw [List.takeWhile_cons] at hc
    by_cases h : p a = true
    · rw [if_pos h] at hc
      rcases List.mem_cons.mp hc with rfl | hc2
      · exact h
      · exact ih c hc2
    · rw [if_neg h] at hc; simp at hc

theorem mem_fileNameChars_ne_slash (p : List Char) (c : Char)
    (h : c ∈ fileNameChars p) : decide (c ≠ '/') = true := by
  rw [fileNameChars, List.mem_reverse] at h
  exact mem_takeWhile_pred p.reverse c h

theorem splitExt_stem_subset (f : List Char) (c : Char)
    (hc : c ∈ (splitExtChars f).1) : c ∈ f := by
  simp only [splitExtChars] at hc
  split at hc
  · exact hc
  · exact List.take_subset _ _ hc

/-- with_extension keeps the directory part of the path. -/
theorem dirPart_with_extension_tmp (p : String) (hf : fileNameChars p.toList ≠ []) :
    dirPartChars (with_extension p "tmp").toList = dirPartChars p.toList := by
  have hall : ∀ c ∈ ((splitExtChars (fileNameChars p.toList)).1
      ++ ('.' :: "tmp".toList)).reverse, decide (c ≠ '/') = true := by
    intro c hc
    rw [List.mem_reverse, List.mem_append] at hc
    rcases hc with hc | hc
    · exact mem_fileNameChars_ne_slash p.toList c (splitExt_stem_subset _ c hc)
    · exact (by decide : ∀ x ∈ ('.' :: "tmp".toList), decide (x ≠ '/') = true) c hc
  rw [with_extension]
  simp only [if_neg hf]
  show dirPartChars (dirPartChars p.toList ++ (splitExtChars (fileNameChars p.toList)).1
      ++ ('.' :: "tmp".toList)) = dirPartChars p.toList
  rw [List.append_assoc, dirPartChars, List.reverse_append,
    dropWhile_append_of_all _ _ hall]
  simp only [dirPartChars, List.reverse_reverse]
  rw [dropWhile_self]

theorem takeWhile_append_of_all {p : Char → Bool} (a b : List Char)
    (h : ∀ c ∈ a, p c = true) : (a ++ b).takeWhile p = a ++ b.takeWhile p := by
  induction a with
  | nil => rfl
  | cons c cs ih =>
    rw [List.cons_append, List.takeWhile_cons, if_pos (h c (List.mem_cons_self c cs)),
      ih fun x hx => h x (List.mem_cons_of_mem c hx), List.cons_append]

theorem takeWhile_dropWhile_nil (p : Char → Bool) (l : List Char) :
    (l.dropWhile p).takeWhile p = [] := by
  induction l with
  | nil => rfl
  | cons c cs ih =>
    rw [List.dropWhile_cons]
    by_cases h : p c = true
    · rw [if_pos h]; exact ih
    · rw [if_neg h, List.takeWhile_cons, if_neg h]

/-- with_extension rebuilds the file name as stem ++ ".tmp": the old extension
is replaced, not suffixed. -/
theorem fileName_with_extension_tmp (p : String) (hf : fileNameChars p.toList ≠ []) :
    fileNameChars (with_extension p "tmp").toList
      = (splitExtChars (fileNameChars p.toList)).1 ++ ('.' :: "tmp".toList) := by
  have hall : ∀ c ∈ ((splitExtChars (fileNameChars p.toList)).1
      ++ ('.' :: "tmp".toList)).reverse, decide (c ≠ '/') = true := by
    intro c hc
    rw [List.mem_reverse, List.mem_append] at hc
    rcases hc with hc | hc
    · exact mem_fileNameChars_ne_slash p.toList c (splitExt_stem_subset _ c hc)
    · exact (by decide : ∀ x ∈ ('.' :: "tmp".toList), decide (x ≠ '/') = true) c hc
  rw [with_extension]
  simp only [if_neg hf]
  show fileNameChars (dirPartChars p.toList ++ (splitExtChars (fileNameChars p.toList)).1
      ++ ('.' :: "tmp".toList)) = _
  rw [List.append_assoc, fileNameChars, List.reverse_append,
    takeWhile_append_of_all _ _ hall]
  simp only [dirPartChars, List.reverse_reverse]
  rw [takeWhile_dropWhile_nil]
  simp

/-- C2 refuted as stated: for the target dir1/a.txt the temp file is created
at dir1/a.tmp (the txt extension is replaced), not at dir1/a.txt.tmp (the
name with an added .tmp suffix). -/
theorem C2_tmp_suffix_counterexample :
    (replaceInFileTrace "dir1/a.txt" ["foo"] []).headD (FsEvent.flush "") =
      FsEvent.create "dir1/a.tmp"
  ∧ ("dir1/a.tmp" : String) ≠ "dir1/a.txt" ++ ".tmp" := by
  exact ⟨by decide, by decide⟩

/-- C2 amended: the temp file is created at file_path.with_extension("tmp"),
which lives in the same directory and whose file name is the stem plus ".tmp"
(the target's extension is replaced by tmp rather than ".tmp" being appended
to the full name), and the rename of the temp file over the source path is
the last filesystem event, after every write and the flush. -/
theorem C2_temp_file_rename_order (file_path : String) (fileLines : List String)
    (results : List SearchResult) (hf : fileNameChars file_path.toList ≠ []) :
    (replaceInFileTrace file_path fileLines results).headD (FsEvent.flush "") =
      FsEvent.create (with_extension file_path "tmp")
  ∧ dirPartChars (with_extension file_path "tmp").toList = dirPartChars file_path.toList
  ∧ fileNameChars (with_extension file_path "tmp").toList
      = (splitExtChars (fileNameChars file_path.toList)).1 ++ ('.' :: "tmp".toList)
  ∧ (replaceInFileTrace file_path fileLines results).getLast?
      = some (FsEvent.rename (with_extension file_path "tmp") file_path)
  ∧ ∀ ev ∈ (replaceInFileTrace file_path fileLines results).dropLast,
      isRenameEvent ev = false := by
  have hsplit : replaceInFileTrace file_path fileLines results =
      (FsEvent.create (with_extension file_path "tmp") ::
        ((replace_in_file fileLines results).1.map
            (fun piece => FsEvent.write (with_extension file_path "tmp") piece)
          ++ [FsEvent.flush (with_extension file_path "tmp")]))
      ++ [FsEvent.rename (with_extension file_path "tmp") file_path] := by
    simp [replaceInFileTrace]
  refine ⟨rfl, dirPart_with_extension_tmp file_path hf,
    fileName_with_extension_tmp file_path hf, ?_, ?_⟩
  · rw [hsplit, List.getLast?_concat]
  · rw [hsplit, List.dropLast_concat]
    intro ev hev
    rcases List.mem_cons.mp hev with rfl | hev2
    · rfl
    · rcases List.mem_append.mp hev2 with hev3 | hev4
      · obtain ⟨piece, _, rfl⟩ := List.mem_map.mp hev3
        rfl
      · rcases List.mem_singleton.mp hev4 with rfl
        rfl

theorem C2_temp_file_rename_order_witness :
    fileNameChars ("dir1/a.txt" : String).toList ≠ []
  ∧ ((replaceInFileTrace "dir1/a.txt" ["foo"] []).headD (FsEvent.flush "") =
        FsEvent.create (with_extension "dir1/a.txt" "tmp")
    ∧ dirPartChars (with_extension "dir1/a.txt" "tmp").toList
        = dirPartChars ("dir1/a.txt" : String).toList
    ∧ fileNameChars (with_extension "dir1/a.txt" "tmp").toList
        = (splitExtChars (fileNameChars ("dir1/a.txt" : String).toList)).1
          ++ ('.' :: "tmp".toList)
    ∧ (replaceInFileTrace "dir1/a.txt" ["foo"] []).getLast?
        = some (FsEvent.rename (with_extension "dir1/a.txt" "tmp") "dir1/a.txt")
    ∧ ∀ ev ∈ (replaceInFileTrace "dir1/a.txt" ["foo"] []).dropLast,
        isRenameEvent ev = false) :=
  ⟨by decide, C2_temp_file_rename_order "dir1/a.txt" ["foo"] [] (by decide)⟩


def sampleResult : SearchResult :=
  { path := "dir1/file1.txt", line_number := 1, line := "foo", replacement := "bar",
    included := true, replace_result := none }

def sampleResult2 : SearchResult :=
  { path := "dir1/file1.txt", line_number := 2, line := "spam", replacement := "eggs",
    included := false, replace_result := none }

theorem C8_selection_wrap_witness :
    (SearchState.move_selected_down^[(SearchState.mk [sampleResult, sampleResult2] 0).results.length]
        (SearchState.mk [sampleResult, sampleResult2] 0) =
      SearchState.mk [sampleResult, sampleResult2] 0)
  ∧ (SearchState.move_selected_up^[(SearchState.mk [sampleResult, sampleResult2] 0).results.length]
        (SearchState.mk [sampleResult, sampleResult2] 0) =
      SearchState.mk [sampleResult, sampleResult2] 0)
  ∧ ((SearchState.mk [sampleResult, sampleResult2] 0).selected
        = (SearchState.mk [sampleResult, sampleResult2] 0).results.length - 1 →
      ((SearchState.mk [sampleResult, sampleResult2] 0).move_selected_down).selected = 0)
  ∧ ((SearchState.mk [sampleResult, sampleResult2] 0).selected = 0 →
      ((SearchState.mk [sampleResult, sampleResult2] 0).move_selected_up).selected
        = (SearchState.mk [sampleResult, sampleResult2] 0).results.length - 1) :=
  C8_selection_wrap (SearchState.mk [sampleResult, sampleResult2] 0)
    (by decide) (by decide)

theorem C10_toggle_selected_inclusion_witness :
    ((SearchState.mk [sampleResult, sampleResult2] 0).toggle_selected_inclusion =
      { SearchState.mk [sampleResult, sampleResult2] 0 with
          results := (SearchState.mk [sampleResult, sampleResult2] 0).results.set 0
            (toggleIncluded
              ((SearchState.mk [sampleResult, sampleResult2] 0).results.get
                ⟨0, by decide⟩)) })
  ∧ ((SearchState.mk [sampleResult, sampleResult2] 5).toggle_selected_inclusion =
      { SearchState.mk [sampleResult, sampleResult2] 5 with
          selected := (SearchState.mk [sampleResult, sampleResult2] 5).results.length - 1 }) :=
  ⟨(C10_toggle_selected_inclusion (SearchState.mk [sampleResult, sampleResult2] 0)).1
      (by decide),
   (C10_toggle_selected_inclusion (SearchState.mk [sampleResult, sampleResult2] 5)).2
      (by decide)⟩

/-! ### The line scanner (src/src/parsed_fields.rs) and the walker's file
filter (App::ignore_file and the walker callback in App::update_search_results,
src/src/app.rs) -/

/-- BINARY_EXTENSIONS from src/src/app.rs. -/
def BINARY_EXTENSIONS : List String := ["png", "gif", "jpg", "jpeg", "ico", "svg", "pdf"]

/-- ASCII lowercase of one character (str::to_lowercase on the ASCII
extensions the blocklist holds). -/
def toLowerChar (c : Char) : Char :=
  if 'A' ≤ c ∧ c ≤ 'Z' then Char.ofNat (c.toNat + 32) else c

def strToLower (s : String) : String :=
  String.mk (s.toList.map toLowerChar)

/-- App::ignore_file: true when the path's extension, lowercased, is in the
hard-coded blocklist. -/
def ignore_file (path : String) : Bool :=
  match pathExtension path with
  | some e => BINARY_EXTENSIONS.contains (strToLower e)
  | none => false

/-- SearchType from src/src/parsed_fields.rs. The two regex engines are kept
abstract: a constructor carries its is_match test and its replace_all
(taking the line and the replacement template). -/
inductive SearchType where
  | Fixed (s : String)
  | Pattern (isMatch : String → Bool) (replAll : String → String → String)
  | PatternAdvanced (isMatch : String → Bool) (replAll : String → String → String)

/-- needle matches at the front of hay. -/
def matchesAt : List Char → List Char → Bool
  | [], _ => true
  | _ :: _, [] => false
  | a :: as, b :: bs => a == b && matchesAt as bs

/-- str::contains with a string needle: some position of hay starts with needle. -/
def containsChars (needle : List Char) : List Char → Bool
  | [] => matchesAt needle []
  | c :: rest => matchesAt needle (c :: rest) || containsChars needle rest

def strContains (hay needle : String) : Bool :=
  containsChars needle.toList hay.toList

/-- str::replace: replace non-overlapping occurrences left to right (fuelled
by the remaining length; each step consumes at least one character). -/
def replaceChars (needle repl : List Char) : Nat → List Char → List Char
  | 0, hay => hay
  | _ + 1, [] => []
  | fuel + 1, c :: rest =>
      if !needle.isEmpty && matchesAt needle (c :: rest) then
        repl ++ replaceChars needle repl fuel ((c :: rest).drop needle.length)
      else c :: replaceChars needle repl fuel rest

def strReplace (hay needle repl : String) : String :=
  String.mk (replaceChars needle.toList repl.toList hay.toList.length hay.toList)

/-- ParsedFields::replacement_if_match from src/src/parsed_fields.rs: test the
search pattern against the line and build the SearchResult with the 1-based
line number, the original line and the proposed replacement. -/
def replacement_if_match (search_pattern : SearchType) (replace_string : String)
    (path : String) (line : String) (line_number : Nat) : Option SearchResult :=
  (match search_pattern with
    | .Fixed s =>
        if strContains line s then some (strReplace line s replace_string) else none
    | .Pattern im ra => if im line then some (ra line replace_string) else none
    | .PatternAdvanced im ra =>
        if im line then some (ra line replace_string) else none).map
    fun replacement =>
      { path := path, line_number := line_number + 1, line := line,
        replacement := replacement, included := true, replace_result := none }

/-- The per-line loop of ParsedFields::handle_path: the results sent on the
channel, in order. A line that produced a match but whose bytes the sniffer
(the content_inspector crate, the abstract parameter sniffBinary) classifies
as binary is skipped with continue, and the loop proceeds to the next line. -/
def scanLines (sniffBinary : String → Bool) (search_pattern : SearchType)
    (replace_string path : String) : List String → Nat → List SearchResult
  | [], _ => []
  | line :: rest, line_number =>
      match replacement_if_match search_pattern replace_string path line line_number with
      | some result =>
          if sniffBinary line then
            scanLines sniffBinary search_pattern replace_string path rest (line_number + 1)
          else
            result ::
              scanLines sniffBinary search_pattern replace_string path rest (line_number + 1)
      | none =>
          scanLines sniffBinary search_pattern replace_string path rest (line_number + 1)

/-- ParsedFields::handle_path: the optional path filter is tested against the
relative path (computed by relative_path_from); on a miss nothing is scanned. -/
def handle_path (sniffBinary : String → Bool) (search_pattern : SearchType)
    (replace_string : String) (path_pattern : Option SearchType)
    (relative_path path : String) (lines : List String) : List SearchResult :=
  match path_pattern with
  | some p =>
      if (match p with
          | .Pattern im _ => im relative_path
          | .PatternAdvanced im _ => im relative_path
          | .Fixed s => strContains relative_path s) then
        scanLines sniffBinary search_pattern replace_string path lines 0
      else []
  | none => scanLines sniffBinary search_pattern replace_string path lines 0

/-- The walker callback for one file entry (App::update_search_results): a
path App::ignore_file rejects is never handed to the scanner. -/
def scanFile (sniffBinary : String → Bool) (search_pattern : SearchType)
    (replace_string : String) (path_pattern : Option SearchType)
    (relative_path path : String) (lines : List String) : List SearchResult :=
  if ignore_file path then []
  else handle_path sniffBinary search_pattern replace_string path_pattern
    relative_path path lines

theorem replacement_if_match_line (sp : SearchType) (rs path line : String)
    (n : Nat) (r : SearchResult)
    (h : replacement_if_match sp rs path line n = some r) : r.line = line := by
  simp only [replacement_if_match] at h
  cases sp with
  | Fixed s =>
      by_cases hc : strContains line s = true
      · simp [hc] at h; rw [← h]
      · simp [hc] at h
  | Pattern im ra =>
      by_cases hc : im line = true
      · simp [hc] at h; rw [← h]
      · simp [hc] at h
  | PatternAdvanced im ra =>
      by_cases hc : im line = true
      · simp [hc] at h; rw [← h]
      · simp [hc] at h

theorem scanLines_nonbinary (sniffBinary : String → Bool) (sp : SearchType)
    (rs path : String) :
    ∀ (lines : List String) (n : Nat) (r : SearchResult),
      r ∈ scanLines sniffBinary sp rs path lines n → sniffBinary r.line = false := by
  intro lines
  induction lines with
  | nil => intro n r hr; simp [scanLines] at hr
  | cons line rest ih =>
    intro n r hr
    rw [scanLines] at hr
    cases hm : replacement_if_match sp rs path line n with
    | none =>
      simp only [hm] at hr
      exact ih (n + 1) r hr
    | some result =>
      simp only [hm] at hr
      cases hb : sniffBinary line with
      | true =>
        simp only [hb, if_true] at hr
        exact ih (n + 1) r hr
      | false =>
        simp only [hb, Bool.false_eq_true, if_false] at hr
        rcases List.mem_cons.mp hr with rfl | hr2
        · rw [replacement_if_match_line sp rs path line n r hm]
          exact hb
        · exact ih (n + 1) r hr2

/-- C5 amended: a file whose extension is blocklisted produces zero matches;
the binary sniff is applied per matching line, dropping that line's match
(scanning continues with later lines), so every emitted match is on a line the
sniffer classifies as non-binary. -/
theorem C5_binary_handling (sniffBinary : String → Bool) (sp : SearchType)
    (rs : String) (pp : Option SearchType) (relative_path path : String)
    (lines : List String) :
    (ignore_file path = true →
      scanFile sniffBinary sp rs pp relative_path path lines = [])
  ∧ ∀ r ∈ scanFile sniffBinary sp rs pp relative_path path lines,
      sniffBinary r.line = false := by
  constructor
  · intro h
    rw [scanFile, if_pos h]
  · intro r hr
    rw [scanFile] at hr
    by_cases hig : ignore_file path = true
    · rw [if_pos hig] at hr; simp at hr
    · rw [if_neg hig] at hr
      cases pp with
      | none =>
        simp only [handle_path] at hr
        exact scanLines_nonbinary sniffBinary sp rs path lines 0 r hr
      | some p =>
        simp only [handle_path] at hr
        split at hr
        · exact scanLines_nonbinary sniffBinary sp rs path lines 0 r hr
        · simp at hr

/-- The sniffer used by concrete C5 inputs: classifies exactly the line
holding a NUL byte as binary. -/
def c5Sniff : String → Bool := fun l => l == "f\x00oo"

theorem C5_binary_handling_witness :
    scanFile c5Sniff (SearchType.Fixed "foo") "bar" none "b.png" "dir1/b.png" ["foo"] = []
  ∧ ∀ r ∈ scanFile c5Sniff (SearchType.Fixed "foo") "bar" none "b.png" "dir1/b.png" ["foo"],
      c5Sniff r.line = false :=
  ⟨(C5_binary_handling c5Sniff (SearchType.Fixed "foo") "bar" none "b.png" "dir1/b.png"
      ["foo"]).1 (by decide),
   (C5_binary_handling c5Sniff (SearchType.Fixed "foo") "bar" none "b.png" "dir1/b.png"
      ["foo"]).2⟩

/-- C5 refuted as stated: a file whose first line sniffs as binary does not
produce zero matches — the sniff only drops that line's own match and the
scanner continues, so the match on line 2 is still emitted. -/
theorem C5_first_line_binary_counterexample :
    c5Sniff ((["f\x00oo", "foo"] : List String).getD 0 "") = true
  ∧ ignore_file "dir1/t.txt" = false
  ∧ scanFile c5Sniff (SearchType.Fixed "o") "0" none "t.txt" "dir1/t.txt"
      ["f\x00oo", "foo"] ≠ []
  ∧ (scanFile c5Sniff (SearchType.Fixed "o") "0" none "t.txt" "dir1/t.txt"
      ["f\x00oo", "foo"]).map (fun r => r.line_number) = [2] := by
  refine ⟨by decide, by decide, by decide, by decide⟩

/-! ### Form validation and search submission (App::validate_fields and
App::perform_search_if_valid, src/src/app.rs) -/

/-- The state App::validate_fields and App::perform_search_if_valid read and
write: the current screen, the four form fields' values, the two text-pattern
fields' optional (short, long) error annotations, and the modal popup flag. -/
structure AppModel where
  screen : Screen
  search_text : String
  replace_text : String
  fixed_strings : Bool
  path_text : String
  search_error : Option (String × String)
  path_error : Option (String × String)
  show_error_popup : Bool
deriving DecidableEq, Repr

/-- App::validate_fields with the regex engines abstracted: compileOk says
whether the active engine compiles a pattern text, compileErr is the engine's
error message. search_type cannot fail in fixed-strings mode; a compile
failure sets the failing field's error to ("Couldn\x27t parse regex", engine
message). An empty path pattern parses to None. When either field failed, the
modal popup flag is set and no parsed fields are produced (Bool false). -/
def validate_fields (compileOk : String → Bool) (compileErr : String → String)
    (app : AppModel) : AppModel × Bool :=
  let r1 :=
    if app.fixed_strings then (app, true)
    else if compileOk app.search_text then (app, true)
    else
      ({ app with
          search_error := some ("Couldn\x27t parse regex", compileErr app.search_text) },
        false)
  let r2 :=
    if r1.1.path_text = "" then (r1.1, true)
    else if compileOk r1.1.path_text then (r1.1, true)
    else
      ({ r1.1 with
          path_error := some ("Couldn\x27t parse regex", compileErr r1.1.path_text) },
        false)
  if r1.2 && r2.2 then (r2.1, true)
  else ({ r2.1 with show_error_popup := true }, false)

/-- App::perform_search_if_valid: on validation failure the screen is set to
SearchFields and no worker task is spawned; on success the screen becomes
SearchProgressing with a fresh empty SearchState and the walker/scanner worker
is spawned (the returned Bool). -/
def perform_search_if_valid (compileOk : String → Bool) (compileErr : String → String)
    (app : AppModel) : AppModel × Bool :=
  if (validate_fields compileOk compileErr app).2 then
    ({ (validate_fields compileOk compileErr app).1 with
        screen := Screen.SearchProgressing (SearchState.mk [] 0) }, true)
  else
    ({ (validate_fields compileOk compileErr app).1 with
        screen := Screen.SearchFields }, false)

/-- C6 amended: when a submitted search pattern (in regex mode) or a non-empty
path pattern fails to compile, each failing field gets the short+long error
annotation, the modal popup flag is set, the screen is the Form screen, and no
worker is spawned; a field that compiled cleanly is not annotated by this
submission. -/
theorem C6_invalid_pattern_no_search (compileOk : String → Bool)
    (compileErr : String → String) (app : AppModel)
    (hfail : (app.fixed_strings = false ∧ compileOk app.search_text = false)
      ∨ (app.path_text ≠ "" ∧ compileOk app.path_text = false)) :
    (perform_search_if_valid compileOk compileErr app).1.show_error_popup = true
  ∧ (perform_search_if_valid compileOk compileErr app).1.screen = Screen.SearchFields
  ∧ (perform_search_if_valid compileOk compileErr app).2 = false
  ∧ (app.fixed_strings = false → compileOk app.search_text = false →
      (perform_search_if_valid compileOk compileErr app).1.search_error =
        some ("Couldn\x27t parse regex", compileErr app.search_text))
  ∧ (app.fixed_strings = false → compileOk app.search_text = true →
      (perform_search_if_valid compileOk compileErr app).1.search_error =
        app.search_error)
  ∧ (app.path_text ≠ "" → compileOk app.path_text = false →
      (perform_search_if_valid compileOk compileErr app).1.path_error =
        some ("Couldn\x27t parse regex", compileErr app.path_text))
  ∧ (app.path_text = "" →
      (perform_search_if_valid compileOk compileErr app).1.path_error =
        app.path_error) := by
  by_cases hfs : app.fixed_strings = true <;>
    by_cases hso : compileOk app.search_text = true <;>
      by_cases hpe : app.path_text = "" <;>
        by_cases hpo : compileOk app.path_text = true <;>
          simp_all [perform_search_if_valid, validate_fields]

def c6App : AppModel :=
  { screen := Screen.SearchFields, search_text := "[", replace_text := "x",
    fixed_strings := false, path_text := "", search_error := none,
    path_error := none, show_error_popup := false }

def c6CompileOk : String → Bool := fun _ => false

def c6CompileErr : String → String := fun _ => "regex parse error"

/-- C6 refuted as stated: submitting with an invalid search pattern and an
empty (hence valid) path pattern annotates only the Search field — the
PathPattern field's error stays none — while the claim asserts both fields are
annotated. The popup flag, Form screen and no-spawn parts do hold here. -/
theorem C6_both_annotated_counterexample :
    (perform_search_if_valid c6CompileOk c6CompileErr c6App).1.search_error =
      some ("Couldn\x27t parse regex", "regex parse error")
  ∧ (perform_search_if_valid c6CompileOk c6CompileErr c6App).1.path_error = none
  ∧ (perform_search_if_valid c6CompileOk c6CompileErr c6App).1.show_error_popup = true
  ∧ (perform_search_if_valid c6CompileOk c6CompileErr c6App).1.screen =
      Screen.SearchFields
  ∧ (perform_search_if_valid c6CompileOk c6CompileErr c6App).2 = false := by
  refine ⟨by decide, by decide, by decide, by decide, by decide⟩

theorem C6_invalid_pattern_no_search_witness :
    (perform_search_if_valid c6CompileOk c6CompileErr c6App).1.show_error_popup = true
  ∧ (perform_search_if_valid c6CompileOk c6CompileErr c6App).1.screen =
      Screen.SearchFields
  ∧ (perform_search_if_valid c6CompileOk c6CompileErr c6App).2 = false
  ∧ (c6App.fixed_strings = false → c6CompileOk c6App.search_text = false →
      (perform_search_if_valid c6CompileOk c6CompileErr c6App).1.search_error =
        some ("Couldn\x27t parse regex", c6CompileErr c6App.search_text))
  ∧ (c6App.fixed_strings = false → c6CompileOk c6App.search_text = true →
      (perform_search_if_valid c6CompileOk c6CompileErr c6App).1.search_error =
        c6App.search_error)
  ∧ (c6App.path_text ≠ "" → c6CompileOk c6App.path_text = false →
      (perform_search_if_valid c6CompileOk c6CompileErr c6App).1.path_error =
        some ("Couldn\x27t parse regex", c6CompileErr c6App.path_text))
  ∧ (c6App.path_text = "" →
      (perform_search_if_valid c6CompileOk c6CompileErr c6App).1.path_error =
        c6App.path_error) :=
  C6_invalid_pattern_no_search c6CompileOk c6CompileErr c6App
    (Or.inl ⟨by decide, by decide⟩)

/-! ### TextField and its editing operations (src/src/fields.rs) -/

/-- FieldError from src/src/fields.rs. -/
structure FieldError where
  short : String
  long : String
deriving DecidableEq, Repr

/-- TextField from src/src/fields.rs. The text is its sequence of unicode
scalars: the Rust code addresses the string exclusively through chars() and
char-index arithmetic (byte_index converts through char positions). -/
structure TextField where
  text : List Char
  cursor_idx : Nat
  error : Option FieldError
deriving DecidableEq, Repr

/-- TextField::new. -/
def TextField.new (initial : List Char) : TextField :=
  { text := initial, cursor_idx := 0, error := none }

/-- clamp_cursor: new_cursor_pos.clamp(0, chars().count()). -/
def TextField.clamp_cursor (f : TextField) (new_cursor_pos : Nat) : Nat :=
  min new_cursor_pos f.text.length

def TextField.move_cursor_left_by (f : TextField) (n : Nat) : TextField :=
  { f with cursor_idx := f.clamp_cursor (f.cursor_idx - n) }

def TextField.move_cursor_left (f : TextField) : TextField :=
  f.move_cursor_left_by 1

def TextField.move_cursor_start (f : TextField) : TextField :=
  { f with cursor_idx := 0 }

def TextField.move_cursor_right_by (f : TextField) (n : Nat) : TextField :=
  { f with cursor_idx := f.clamp_cursor (f.cursor_idx + n) }

def TextField.move_cursor_right (f : TextField) : TextField :=
  f.move_cursor_right_by 1

def TextField.move_cursor_end (f : TextField) : TextField :=
  { f with cursor_idx := f.text.length }

/-- enter_char: insert at byte_index() — the cursor's char position, or the
end when the cursor is past it — then move_cursor_right (which clamps against
the grown text). -/
def TextField.enter_char (f : TextField) (c : Char) : TextField :=
  TextField.move_cursor_right
    { f with text := f.text.insertIdx (min f.cursor_idx f.text.length) c }

/-- delete_char: backspace; take(cursor - 1) ++ skip(cursor), then
move_cursor_left against the shrunk text. -/
def TextField.delete_char (f : TextField) : TextField :=
  if f.cursor_idx = 0 then f
  else
    TextField.move_cursor_left
      { f with text := f.text.take (f.cursor_idx - 1) ++ f.text.drop f.cursor_idx }

/-- delete_char_forward: take(cursor) ++ skip(cursor + 1), cursor unchanged. -/
def TextField.delete_char_forward (f : TextField) : TextField :=
  { f with text := f.text.take f.cursor_idx ++ f.text.drop (f.cursor_idx + 1) }

/-- First while loop of previous_word_start:
while idx > 0 && before_char[idx] == ' ' do idx -= 1. -/
def skipSpacesLeft (before : List Char) : Nat → Nat
  | 0 => 0
  | idx + 1 => if before.getD (idx + 1) ' ' = ' ' then skipSpacesLeft before idx else idx + 1

/-- Second while loop of previous_word_start:
while idx > 0 && before_char[idx - 1] != ' ' do idx -= 1. -/
def skipWordLeft (before : List Char) : Nat → Nat
  | 0 => 0
  | idx + 1 => if before.getD idx ' ' ≠ ' ' then skipWordLeft before idx else idx + 1

/-- previous_word_start: on the chars before the cursor, skip spaces leftwards
from cursor - 1, then skip the non-space run. -/
def TextField.previous_word_start (f : TextField) : Nat :=
  if f.cursor_idx = 0 then 0
  else
    skipWordLeft (f.text.take f.cursor_idx)
      (skipSpacesLeft (f.text.take f.cursor_idx) (f.cursor_idx - 1))

def TextField.move_cursor_back_word (f : TextField) : TextField :=
  { f with cursor_idx := f.previous_word_start }

/-- delete_word_backward: take(previous_word_start) ++ skip(cursor); the
cursor lands on previous_word_start. -/
def TextField.delete_word_backward (f : TextField) : TextField :=
  { f with
      text := f.text.take f.previous_word_start ++ f.text.drop f.cursor_idx,
      cursor_idx := f.previous_word_start }

/-- First while loop of next_word_start: the non-space run from the front. -/
def nonSpaceRunLen : List Char → Nat
  | [] => 0
  | c :: rest => if c ≠ ' ' then nonSpaceRunLen rest + 1 else 0

/-- Second while loop of next_word_start: the space run that follows. -/
def spaceRunLen : List Char → Nat
  | [] => 0
  | c :: rest => if c = ' ' then spaceRunLen rest + 1 else 0

/-- next_word_start: on the chars at and after the cursor, skip the non-space
run, then the spaces that follow; the result is an absolute char index. -/
def TextField.next_word_start (f : TextField) : Nat :=
  f.cursor_idx + (nonSpaceRunLen (f.text.drop f.cursor_idx)
    + spaceRunLen ((f.text.drop f.cursor_idx).drop
        (nonSpaceRunLen (f.text.drop f.cursor_idx))))

def TextField.move_cursor_forward_word (f : TextField) : TextField :=
  { f with cursor_idx := f.next_word_start }

/-- delete_word_forward: take(cursor) ++ skip(next_word_start), cursor
unchanged. -/
def TextField.delete_word_forward (f : TextField) : TextField :=
  { f with text := f.text.take f.cursor_idx ++ f.text.drop f.next_word_start }

/-- clear: empty the text and reset the cursor. -/
def TextField.clear (f : TextField) : TextField :=
  { f with text := [], cursor_idx := 0 }

/-- The text-field editing operations reachable from TextField::handle_keys. -/
inductive TextOp where
  | enter (c : Char)
  | backspace
  | deleteForward
  | deleteWordBackward
  | deleteWordForward
  | clearAll
  | left
  | right
  | home
  | toEnd
  | backWord
  | forwardWord
deriving DecidableEq, Repr

def applyOp (f : TextField) : TextOp → TextField
  | .enter c => f.enter_char c
  | .backspace => f.delete_char
  | .deleteForward => f.delete_char_forward
  | .deleteWordBackward => f.delete_word_backward
  | .deleteWordForward => f.delete_word_forward
  | .clearAll => f.clear
  | .left => f.move_cursor_left
  | .right => f.move_cursor_right
  | .home => f.move_cursor_start
  | .toEnd => f.move_cursor_end
  | .backWord => f.move_cursor_back_word
  | .forwardWord => f.move_cursor_forward_word

def applyOps (f : TextField) (ops : List TextOp) : TextField :=
  ops.foldl applyOp f

theorem skipSpacesLeft_le (b : List Char) : ∀ i, skipSpacesLeft b i ≤ i := by
  intro i
  induction i with
  | zero => exact Nat.le_refl _
  | succ n ih =>
    rw [skipSpacesLeft]
    split
    · exact Nat.le_trans ih (Nat.le_succ n)
    · exact Nat.le_refl _

theorem skipWordLeft_le (b : List Char) : ∀ i, skipWordLeft b i ≤ i := by
  intro i
  induction i with
  | zero => exact Nat.le_refl _
  | succ n ih =>
    rw [skipWordLeft]
    split
    · exact Nat.le_trans ih (Nat.le_succ n)
    · exact Nat.le_refl _

theorem previous_word_start_le (f : TextField) :
    f.previous_word_start ≤ f.cursor_idx := by
  rw [TextField.previous_word_start]
  split
  · exact Nat.zero_le _
  · have h1 := skipWordLeft_le (f.text.take f.cursor_idx)
      (skipSpacesLeft (f.text.take f.cursor_idx) (f.cursor_idx - 1))
    have h2 := skipSpacesLeft_le (f.text.take f.cursor_idx) (f.cursor_idx - 1)
    omega

theorem nonSpaceRunLen_le (l : List Char) : nonSpaceRunLen l ≤ l.length := by
  induction l with
  | nil => exact Nat.le_refl _
  | cons c rest ih =>
    rw [nonSpaceRunLen]
    split
    · simpa using ih
    · exact Nat.zero_le _

theorem spaceRunLen_le (l : List Char) : spaceRunLen l ≤ l.length := by
  induction l with
  | nil => exact Nat.le_refl _
  | cons c rest ih =>
    rw [spaceRunLen]
    split
    · simpa using ih
    · exact Nat.zero_le _

theorem next_word_start_le (f : TextField) (h : f.cursor_idx ≤ f.text.length) :
    f.next_word_start ≤ f.text.length := by
  rw [TextField.next_word_start]
  have h1 := nonSpaceRunLen_le (f.text.drop f.cursor_idx)
  have h2 := spaceRunLen_le ((f.text.drop f.cursor_idx).drop
    (nonSpaceRunLen (f.text.drop f.cursor_idx)))
  simp only [List.length_drop] at h1 h2
  omega

/-- Every single text-field operation preserves cursor ≤ length. -/
theorem applyOp_inv (f : TextField) (op : TextOp) (h : f.cursor_idx ≤ f.text.length) :
    (applyOp f op).cursor_idx ≤ (applyOp f op).text.length := by
  cases op with
  | enter c => exact Nat.min_le_right _ _
  | backspace =>
    rw [applyOp, TextField.delete_char]
    split
    · exact h
    · exact Nat.min_le_right _ _
  | deleteForward =>
    simp only [applyOp, TextField.delete_char_forward, List.length_append,
      List.length_take, List.length_drop]
    omega
  | deleteWordBackward =>
    have hp := previous_word_start_le f
    simp only [applyOp, TextField.delete_word_backward, List.length_append,
      List.length_take, List.length_drop]
    omega
  | deleteWordForward =>
    have hn := next_word_start_le f h
    simp only [applyOp, TextField.delete_word_forward, List.length_append,
      List.length_take, List.length_drop]
    omega
  | clearAll => exact Nat.le_refl _
  | left => exact Nat.min_le_right _ _
  | right => exact Nat.min_le_right _ _
  | home => exact Nat.zero_le _
  | toEnd => exact Nat.le_refl _
  | backWord =>
    have hp := previous_word_start_le f
    simp only [applyOp, TextField.move_cursor_back_word]
    omega
  | forwardWord => exact next_word_start_le f h

theorem applyOps_inv (ops : List TextOp) :
    ∀ f : TextField, f.cursor_idx ≤ f.text.length →
      (applyOps f ops).cursor_idx ≤ (applyOps f ops).text.length := by
  induction ops with
  | nil => intro f h; exact h
  | cons op rest ih =>
    intro f h
    rw [applyOps, List.foldl_cons]
    exact ih (applyOp f op) (applyOp_inv f op h)

/-- C9: starting from any text field satisfying the cursor invariant (as every
field the program constructs does — TextField::new places the cursor at 0),
any sequence of the editing operations leaves the cursor within
0 ≤ cursor ≤ current character count. -/
theorem C9_cursor_clamp (f : TextField) (ops : List TextOp)
    (h : f.cursor_idx ≤ f.text.length) :
    0 ≤ (applyOps f ops).cursor_idx
  ∧ (applyOps f ops).cursor_idx ≤ (applyOps f ops).text.length :=
  ⟨Nat.zero_le _, applyOps_inv ops f h⟩

theorem C9_cursor_clamp_witness :
    (TextField.new "ab cd".toList).cursor_idx ≤ (TextField.new "ab cd".toList).text.length
  ∧ (0 ≤ (applyOps (TextField.new "ab cd".toList)
        [TextOp.toEnd, TextOp.backWord, TextOp.enter 'x', TextOp.backspace,
         TextOp.deleteWordBackward, TextOp.forwardWord]).cursor_idx
    ∧ (applyOps (TextField.new "ab cd".toList)
        [TextOp.toEnd, TextOp.backWord, TextOp.enter 'x', TextOp.backspace,
         TextOp.deleteWordBackward, TextOp.forwardWord]).cursor_idx
      ≤ (applyOps (TextField.new "ab cd".toList)
        [TextOp.toEnd, TextOp.backWord, TextOp.enter 'x', TextOp.backspace,
         TextOp.deleteWordBackward, TextOp.forwardWord]).text.length) :=
  ⟨by decide,
   C9_cursor_clamp (TextField.new "ab cd".toList)
     [TextOp.toEnd, TextOp.backWord, TextOp.enter 'x', TextOp.backspace,
      TextOp.deleteWordBackward, TextOp.forwardWord] (by decide)⟩

end Scooter
